import Mathlib

/-!
Verification of the speaker-identification pipeline in
`src/HW4/R10945015_HW4.py` (ML-2022 homework 4).

The Python source is shallowly embedded: mel-spectrograms become lists of
rational frames, the collate function and classifier head become pure list
functions, the learning-rate lambda becomes a real-valued function, and the
training loop becomes an `Except`-valued fold whose error cases mirror the
uncaught Python exceptions (`NameError`, `StopIteration`, `KeyError`).
-/

namespace HW4

/-! ## Segmenting dataset (`myDataset.__getitem__`, lines 109-124)

The Python code loads a mel-spectrogram `mel` (a list of frames) and, when
`len(mel) > segment_len`, draws `start = random.randint(0, len(mel) - segment_len)`
(inclusive on both ends) and returns the slice `mel[start:start+segment_len]`;
otherwise it returns `mel` unchanged.  The random draw is modelled by passing
the chosen `start` explicitly; theorems quantify over every value the inclusive
range `[0, len(mel) - segment_len]` can produce. -/

/-- Embedding of `myDataset.__getitem__`: the mel slice returned for a given
random start offset.  `mel[start:start+segment_len]` is `drop start` then
`take segment_len`. -/
def getitemMel (segment_len start : ℕ) (mel : List ℚ) : List ℚ :=
  if segment_len < mel.length then (mel.drop start).take segment_len else mel

/-! ## Batch collator (`collate_batch`, lines 142-149)

`pad_sequence(mel, batch_first=True, padding_value=-20)` right-pads every
sequence of the batch to the maximum length in the batch with the scalar
`-20`; the label vector keeps the input order. -/

/-- Embedding of `torch.nn.utils.rnn.pad_sequence` with `batch_first=True`
on the time dimension: each sequence is right-padded to the maximum length
with `padding_value`. -/
def pad_sequence (seqs : List (List ℚ)) (padding_value : ℚ) : List (List ℚ) :=
  let maxLen := (seqs.map List.length).foldr max 0
  seqs.map (fun s => s ++ List.replicate (maxLen - s.length) padding_value)

/-- Embedding of `collate_batch`: unzip the batch, pad the mels with `-20`,
keep the labels in input order. -/
def collate_batch (batch : List (List ℚ × ℕ)) : List (List ℚ) × List ℕ :=
  (pad_sequence (batch.map Prod.fst) (-20), batch.map Prod.snd)

/-- The padded length used by `pad_sequence`: maximum sequence length of the
batch (0 for an empty batch). -/
def batchMaxLen (seqs : List (List ℚ)) : ℕ :=
  (seqs.map List.length).foldr max 0

lemma pad_sequence_eq_map (seqs : List (List ℚ)) (pv : ℚ) :
    pad_sequence seqs pv
      = seqs.map (fun s => s ++ List.replicate (batchMaxLen seqs - s.length) pv) := rfl

lemma le_foldr_max_of_mem {l : List ℕ} {x : ℕ} (hx : x ∈ l) : x ≤ l.foldr max 0 := by
  induction l with
  | nil => cases hx
  | cons a t ih =>
    rcases List.mem_cons.mp hx with h | h
    · subst h; exact le_max_left _ _
    · exact le_trans (ih h) (le_max_right _ _)

lemma foldr_max_mem {l : List ℕ} (hl : l ≠ []) : l.foldr max 0 ∈ l := by
  induction l with
  | nil => exact absurd rfl hl
  | cons a t ih =>
    cases t with
    | nil => simp
    | cons b u =>
      rcases max_choice a ((b :: u).foldr max 0) with h | h
      · simp only [List.foldr, h] at *
        exact List.mem_cons_self _ _
      · simp only [List.foldr] at h ⊢
        rw [h]
        exact List.mem_cons_of_mem _ (ih (by simp))

/-- C3: for a stored utterance with strictly more frames than `segment_len`,
`__getitem__` returns a contiguous window of exactly `segment_len` frames
starting at the drawn offset (any offset in `[0, length - segment_len]`);
for an utterance with at most `segment_len` frames it returns the full
utterance unchanged. -/
theorem getitem_segment_spec (segment_len start : ℕ) (mel : List ℚ) :
    (segment_len < mel.length → start ≤ mel.length - segment_len →
      (getitemMel segment_len start mel).length = segment_len ∧
      ∀ i, i < segment_len →
        (getitemMel segment_len start mel)[i]? = mel[start + i]?) ∧
    (mel.length ≤ segment_len → getitemMel segment_len start mel = mel) := by
  constructor
  · intro hlt hstart
    have hdef : getitemMel segment_len start mel = (mel.drop start).take segment_len := by
      simp [getitemMel, hlt]
    constructor
    · rw [hdef]
      simp only [List.length_take, List.length_drop]
      omega
    · intro i hi
      rw [hdef]
      rw [List.getElem?_take_of_lt hi, List.getElem?_drop]
  · intro hle
    simp [getitemMel, Nat.not_lt.mpr hle]

/-- Concrete instance of `getitem_segment_spec`: segment length 2, start 1,
a four-frame utterance. -/
theorem getitem_segment_spec_witness :
    (getitemMel 2 1 [3, 4, 5, 6]).length = 2 ∧
      (getitemMel 2 1 [3, 4, 5, 6])[1]? = ([3, 4, 5, 6] : List ℚ)[1 + 1]? := by
  have h := (getitem_segment_spec 2 1 [3, 4, 5, 6]).1 (by decide) (by decide)
  exact ⟨h.1, h.2 1 (by decide)⟩

/-- C4: for a non-empty batch, the collated tensor has one row per input pair
in input order, every row is padded to the maximum sequence length of the
batch (a length attained by some sequence), row `i` starts with sequence `i`
unchanged, and every position from the sequence's own length up to the padded
length holds the sentinel `-20`. -/
theorem collate_batch_pads_to_max (batch : List (List ℚ × ℕ)) (hne : batch ≠ []) :
    (collate_batch batch).1.length = batch.length ∧
    (collate_batch batch).2 = batch.map Prod.snd ∧
    batchMaxLen (batch.map Prod.fst) ∈ (batch.map Prod.fst).map List.length ∧
    (∀ row ∈ (collate_batch batch).1, row.length = batchMaxLen (batch.map Prod.fst)) ∧
    (∀ (i : ℕ) (s : List ℚ), (batch.map Prod.fst)[i]? = some s →
      ∃ row, (collate_batch batch).1[i]? = some row ∧
        row.take s.length = s ∧
        ∀ j, s.length ≤ j → j < batchMaxLen (batch.map Prod.fst) →
          row[j]? = some (-20)) := by
  have hcb : (collate_batch batch).1
      = (batch.map Prod.fst).map
          (fun s => s ++ List.replicate (batchMaxLen (batch.map Prod.fst) - s.length) (-20)) :=
    pad_sequence_eq_map _ _
  refine ⟨by rw [hcb]; simp, rfl, ?_, ?_, ?_⟩
  · exact foldr_max_mem (by simp [hne])
  · intro row hrow
    rw [hcb] at hrow
    rcases List.mem_map.mp hrow with ⟨s, hs, hrow⟩
    have hle : s.length ≤ batchMaxLen (batch.map Prod.fst) :=
      le_foldr_max_of_mem (List.mem_map_of_mem List.length hs)
    subst hrow
    simp only [List.length_append, List.length_replicate]
    omega
  · intro i s hs
    have hmem : s ∈ batch.map Prod.fst := List.getElem?_mem hs
    have hle : s.length ≤ batchMaxLen (batch.map Prod.fst) :=
      le_foldr_max_of_mem (List.mem_map_of_mem List.length hmem)
    refine ⟨s ++ List.replicate (batchMaxLen (batch.map Prod.fst) - s.length) (-20),
      ?_, ?_, ?_⟩
    · rw [hcb, List.getElem?_map, hs]
      rfl
    · exact List.take_left s _
    · intro j hj1 hj2
      rw [List.getElem?_append_right hj1, List.getElem?_replicate]
      have : j - s.length < batchMaxLen (batch.map Prod.fst) - s.length := by omega
      simp [this]

/-- Concrete instance of `collate_batch_pads_to_max`: input lengths
`[5, 3, 7]` produce a padded time dimension of 7 and sentinel entries
beyond each sequence's own length. -/
theorem collate_batch_pads_to_max_witness :
    (collate_batch [(List.replicate 5 1, 0), (List.replicate 3 2, 1),
        (List.replicate 7 3, 2)]).1.length = 3 ∧
    (∀ row ∈ (collate_batch [(List.replicate 5 1, 0), (List.replicate 3 2, 1),
        (List.replicate 7 3, 2)]).1, row.length = 7) := by
  have h := collate_batch_pads_to_max
    [(List.replicate 5 1, 0), (List.replicate 3 2, 1), (List.replicate 7 3, 2)]
    (by decide)
  refine ⟨h.1, ?_⟩
  intro row hrow
  have := h.2.2.2.1 row hrow
  simpa [batchMaxLen] using this

/-! ## Learning-rate schedule (`lr_lambda` inside
`get_cosine_schedule_with_warmup`, lines 321-331)

`lr_lambda(current_step)` returns `current_step / max(1, num_warmup_steps)`
during warmup and `max(0, 0.5 * (1 + cos(pi * num_cycles * 2 * progress)))`
afterwards, with `progress = (current_step - num_warmup_steps) /
max(1, num_training_steps - num_warmup_steps)`.  Python `int` subtraction can
be negative, so the inner difference is taken in `ℤ`; the step counter fed by
`LambdaLR` is a natural number.  Floating point is modelled by exact real
arithmetic. -/

/-- Embedding of `lr_lambda`: the multiplicative learning-rate factor as a
function of the step counter. -/
noncomputable def lr_lambda (num_warmup_steps num_training_steps : ℕ)
    (num_cycles : ℝ) (current_step : ℕ) : ℝ :=
  if current_step < num_warmup_steps then
    (current_step : ℝ) / ((max 1 num_warmup_steps : ℕ) : ℝ)
  else
    max 0 (0.5 * (1 + Real.cos (Real.pi * num_cycles * 2 *
      (((current_step : ℝ) - (num_warmup_steps : ℝ)) /
        (((max 1 ((num_training_steps : ℤ) - (num_warmup_steps : ℤ))) : ℤ) : ℝ)))))

/-- C5: with `num_cycles = 0.5`, the schedule factor is 0 at step 0, follows
the linear ramp `s / num_warmup_steps` through warmup, equals exactly 1 at
`step = num_warmup_steps`, follows the half-cosine decay afterwards, and
equals 0 at `step = num_training_steps`. -/
theorem lr_schedule_endpoints (w t : ℕ) (hw : 0 < w) (hwt : w < t) :
    lr_lambda w t (1 / 2) 0 = 0 ∧
    lr_lambda w t (1 / 2) w = 1 ∧
    lr_lambda w t (1 / 2) t = 0 ∧
    (∀ s : ℕ, s < w → lr_lambda w t (1 / 2) s = (s : ℝ) / (w : ℝ)) ∧
    (∀ s : ℕ, w ≤ s → lr_lambda w t (1 / 2) s
        = max 0 (2⁻¹ * (1 + Real.cos (Real.pi *
            (((s : ℝ) - (w : ℝ)) / ((t : ℝ) - (w : ℝ))))))) := by
  have hcast : (((max 1 ((t : ℤ) - (w : ℤ))) : ℤ) : ℝ) = (t : ℝ) - (w : ℝ) := by
    rw [max_eq_right (by omega : (1 : ℤ) ≤ (t : ℤ) - (w : ℤ))]
    push_cast
    ring
  have htw : (t : ℝ) - (w : ℝ) ≠ 0 := by
    have : (w : ℝ) < (t : ℝ) := by exact_mod_cast hwt
    intro h
    linarith
  have hwarm : ∀ s : ℕ, s < w → lr_lambda w t (1 / 2) s = (s : ℝ) / (w : ℝ) := by
    intro s hs
    rw [lr_lambda, if_pos hs, max_eq_right (by omega : 1 ≤ w)]
  have hgen : ∀ s : ℕ, w ≤ s → lr_lambda w t (1 / 2) s
      = max 0 (2⁻¹ * (1 + Real.cos (Real.pi *
          (((s : ℝ) - (w : ℝ)) / ((t : ℝ) - (w : ℝ)))))) := by
    intro s hs
    rw [lr_lambda, if_neg (by omega), hcast]
    norm_num
    ring_nf
  refine ⟨?_, ?_, ?_, hwarm, hgen⟩
  · rw [hwarm 0 hw]
    simp
  · rw [hgen w le_rfl]
    simp
    norm_num
  · rw [hgen t (le_of_lt hwt), div_self htw]
    simp [Real.cos_pi]

/-- Concrete instance of `lr_schedule_endpoints`: warmup 1, total steps 2. -/
theorem lr_schedule_endpoints_witness :
    lr_lambda 1 2 (1 / 2) 0 = 0 ∧ lr_lambda 1 2 (1 / 2) 1 = 1 ∧
      lr_lambda 1 2 (1 / 2) 2 = 0 := by
  have h := lr_schedule_endpoints 1 2 (by norm_num) (by norm_num)
  exact ⟨h.1, h.2.1, h.2.2.1⟩

/-- C10: the schedule factor is non-negative for every step counter,
warmup/total configuration and cycle count: the warmup ramp is a quotient of
non-negative numbers and the decay branch is clamped below at 0. -/
theorem lr_lambda_nonneg (w t : ℕ) (c : ℝ) (s : ℕ) : 0 ≤ lr_lambda w t c s := by
  rw [lr_lambda]
  split
  · apply div_nonneg
    · exact Nat.cast_nonneg s
    · exact Nat.cast_nonneg _
  · exact le_max_left 0 _

/-! ## Ensemble averaging in the inference loop (lines 649-656)

`outs = (outs1 + outs2 + outs3) / 3` adds three logit tensors elementwise
and divides by 3; `preds = outs.argmax(1)` picks, per utterance, the index
of the (first) maximal logit. -/

/-- Elementwise addition of two logit vectors (torch tensor `+`). -/
def addVec (x y : List ℚ) : List ℚ := List.zipWith (· + ·) x y

/-- Embedding of the ensemble line `(outs1 + outs2 + outs3) / 3` on one
utterance's logit vectors. -/
def ensemble3 (o1 o2 o3 : List ℚ) : List ℚ :=
  (addVec (addVec o1 o2) o3).map (fun x => x / 3)

/-- Helper for `argmaxIdx`: scan the remaining entries keeping the best value
and its index; only a strictly greater entry displaces the running best, so
the first maximal entry wins. -/
def argmaxAux : List ℚ → ℚ → ℕ → ℕ → ℕ
  | [], _, bi, _ => bi
  | x :: t, bv, bi, i =>
    if bv < x then argmaxAux t x i (i + 1) else argmaxAux t bv bi (i + 1)

/-- Embedding of `outs.argmax(1)` on a single utterance's logit vector:
the index of the first maximal entry (0 on the empty vector). -/
def argmaxIdx : List ℚ → ℕ
  | [] => 0
  | x :: t => argmaxAux t x 0 1

lemma ensemble3_self (o : List ℚ) : ensemble3 o o o = o := by
  induction o with
  | nil => rfl
  | cons x t ih =>
    show ((x + x + x) / 3) :: ensemble3 t t t = x :: t
    rw [ih]
    congr 1
    ring

/-- C8: averaging the logit outputs of three identical models on the same
input, as `(outs1 + outs2 + outs3) / 3` does, yields exactly the single
model's logits and hence the same argmax (predicted speaker id). -/
theorem ensemble_identical_argmax (o : List ℚ) :
    argmaxIdx (ensemble3 o o o) = argmaxIdx o := by
  rw [ensemble3_self]

/-! ## Classifier head (`Classifier.forward`, lines 219-267)

The forward pass is `prenet` (a 40 → `d_model` linear layer applied to every
frame), the Conformer encoder, mean pooling over the time dimension, and a
two-layer feed-forward head (`d_model → d_model`, ReLU, `d_model → n_spks`).
The Conformer itself is imported from the external module `CF`, whose source
is not part of this repository. -/

/-- Dot product of a weight row with an input vector. -/
def dot (w x : List ℚ) : ℚ := (List.zipWith (· * ·) w x).sum

/-- Embedding of `nn.Linear`: one output entry per (weight-row, bias) pair. -/
def linear (W : List (List ℚ)) (b : List ℚ) (x : List ℚ) : List ℚ :=
  List.zipWith (fun wr bi => dot wr x + bi) W b

/-- Embedding of `nn.ReLU` on one entry. -/
def relu (x : ℚ) : ℚ := max x 0

/-- Elementwise sum of two frame vectors (used by mean pooling). -/
def vadd (x y : List ℚ) : List ℚ := List.zipWith (· + ·) x y

/-- Embedding of `out.mean(dim=1)` on one batch element: elementwise mean of
its frame vectors. -/
def meanDim1 : List (List ℚ) → List ℚ
  | [] => []
  | h :: t => (t.foldl vadd h).map (fun v => v / (((h :: t).length : ℕ) : ℚ))

/-- The learned parameters of `Classifier` that determine output shapes:
`prenet` weight/bias and the two `pred_layer` linear layers. -/
structure ClassifierParams where
  prenetW : List (List ℚ)
  prenetB : List ℚ
  predW1 : List (List ℚ)
  predB1 : List ℚ
  predW2 : List (List ℚ)
  predB2 : List ℚ

/-- The nested shape of a batch tensor `[batch × time × channels]`: per batch
element, the list of its frame lengths. -/
def shape3 (x : List (List (List ℚ))) : List (List ℕ) :=
  x.map (fun seq => seq.map List.length)

/-- Modelled from the spec: the Conformer encoder comes from the external
module `CF` (`from CF import Conformer`), whose code is not in this
repository; the spec states "Output shape equals input shape; no change to
the time or batch dimension".  Its numeric transform is therefore abstracted
as an arbitrary function, and this predicate records the spec's
shape-preservation contract for it. -/
def ConformerShapePreserving
    (f : List (List (List ℚ)) → List (List (List ℚ))) : Prop :=
  ∀ x, shape3 (f x) = shape3 x

/-- Embedding of `Classifier.forward`: prenet on every frame, the Conformer
encoder, mean pooling over time, then the two-layer prediction head. -/
def Classifier.forward (p : ClassifierParams)
    (conformer : List (List (List ℚ)) → List (List (List ℚ)))
    (mels : List (List (List ℚ))) : List (List ℚ) :=
  let out := mels.map (fun seq => seq.map (linear p.prenetW p.prenetB))
  let out2 := conformer out
  let stats := out2.map meanDim1
  stats.map (fun s => linear p.predW2 p.predB2 ((linear p.predW1 p.predB1 s).map relu))

/-- C6: for every batch of shape `[B × T × 40]` with `B ≥ 1`, `T ≥ 1`, the
classifier head returns `B` logit rows of length `n_spks` each — the output
shape depends only on the batch size and the configured speaker count, not on
the time dimension. -/
theorem classifier_output_shape (p : ClassifierParams)
    (conformer : List (List (List ℚ)) → List (List (List ℚ)))
    (hconf : ConformerShapePreserving conformer)
    (d_model n_spks : ℕ)
    (hpW : p.prenetW.length = d_model) (hpB : p.prenetB.length = d_model)
    (hW1 : p.predW1.length = d_model) (hB1 : p.predB1.length = d_model)
    (hW2 : p.predW2.length = n_spks) (hB2 : p.predB2.length = n_spks)
    (B : ℕ) (hBpos : 0 < B)
    (mels : List (List (List ℚ))) (hB : mels.length = B)
    (hT : ∀ seq ∈ mels, seq ≠ [])
    (h40 : ∀ seq ∈ mels, ∀ fr ∈ seq, fr.length = 40) :
    (Classifier.forward p conformer mels).length = B ∧
    ∀ row ∈ Classifier.forward p conformer mels, row.length = n_spks := by
  have hlen : ∀ y : List (List (List ℚ)), (conformer y).length = y.length := by
    intro y
    have := congrArg List.length (hconf y)
    simpa [shape3] using this
  constructor
  · simp [Classifier.forward, hlen, hB]
  · intro row hrow
    simp only [Classifier.forward, List.mem_map] at hrow
    obtain ⟨s, _, hrow⟩ := hrow
    subst hrow
    simp [linear, List.length_zipWith, hW2, hB2]

/-- Concrete instance of `classifier_output_shape`: a one-utterance,
one-frame batch of 40 zero channels, identity Conformer, `d_model = 2`,
`n_spks = 3`. -/
theorem classifier_output_shape_witness :
    (Classifier.forward
        ⟨List.replicate 2 (List.replicate 40 0), List.replicate 2 0,
         List.replicate 2 (List.replicate 2 0), List.replicate 2 0,
         List.replicate 3 (List.replicate 2 0), List.replicate 3 0⟩
        id [[List.replicate 40 0]]).length = 1 ∧
    ∀ row ∈ Classifier.forward
        ⟨List.replicate 2 (List.replicate 40 0), List.replicate 2 0,
         List.replicate 2 (List.replicate 2 0), List.replicate 2 0,
         List.replicate 3 (List.replicate 2 0), List.replicate 3 0⟩
        id [[List.replicate 40 0]], row.length = 3 :=
  classifier_output_shape
    ⟨List.replicate 2 (List.replicate 40 0), List.replicate 2 0,
     List.replicate 2 (List.replicate 2 0), List.replicate 2 0,
     List.replicate 3 (List.replicate 2 0), List.replicate 3 0⟩
    id (fun _ => rfl) 2 3 (by simp) (by simp) (by simp) (by simp) (by simp)
    (by simp) 1 (by norm_num) [[List.replicate 40 0]] rfl
    (by simp) (by simp)

/-! ## Dataset construction (`myDataset.__init__`, lines 90-104)

The constructor walks `metadata["speakers"]` and, for each utterance of each
speaker, appends `[feature_path, speaker2id[speaker]]` to `self.data`.  The
dict lookup `speaker2id[speaker]` sits inside the inner loop, so it is
evaluated once per utterance and raises `KeyError` for an unmapped speaker —
but only if that speaker contributes at least one utterance. -/

/-- Embedding of the Python dict lookup `speaker2id[speaker]`: the value at
the first matching key, or a `KeyError`. -/
def dictLookup (m : List (String × ℕ)) (k : String) : Except String ℕ :=
  match m.find? (fun p => p.1 == k) with
  | some p => Except.ok p.2
  | none => Except.error "KeyError"

/-- Embedding of the inner loop of `myDataset.__init__`: append one
`(feature_path, speaker_id)` entry per utterance of `speaker`, looking up the
speaker id per utterance. -/
def initSpeakerUtts (speaker2id : List (String × ℕ)) (speaker : String) :
    List String → List (String × ℕ) → Except String (List (String × ℕ))
  | [], acc => Except.ok acc
  | fp :: rest, acc =>
    match dictLookup speaker2id speaker with
    | Except.ok sid => initSpeakerUtts speaker2id speaker rest (acc ++ [(fp, sid)])
    | Except.error e => Except.error e

/-- Embedding of the outer loop of `myDataset.__init__`: build `self.data`
over all speakers of the metadata, in order. -/
def initData (speaker2id : List (String × ℕ)) :
    List (String × List String) → List (String × ℕ) →
      Except String (List (String × ℕ))
  | [], acc => Except.ok acc
  | (speaker, utts) :: rest, acc =>
    match initSpeakerUtts speaker2id speaker utts acc with
    | Except.ok acc2 => initData speaker2id rest acc2
    | Except.error e => Except.error e

lemma dictLookup_ok_mem {m : List (String × ℕ)} {k : String} {sid : ℕ}
    (h : dictLookup m k = Except.ok sid) : ∃ p ∈ m, p.2 = sid := by
  rw [dictLookup] at h
  cases hf : m.find? (fun p => p.1 == k) with
  | none => rw [hf] at h; cases h
  | some p =>
    rw [hf] at h
    cases h
    exact ⟨p, List.mem_of_find?_eq_some hf, rfl⟩

lemma dictLookup_error {m : List (String × ℕ)} {k : String}
    (h : ∀ p ∈ m, p.1 ≠ k) : dictLookup m k = Except.error "KeyError" := by
  have hf : m.find? (fun p => p.1 == k) = none := by
    rw [List.find?_eq_none]
    intro p hp
    simpa using h p hp
  rw [dictLookup, hf]

lemma initSpeakerUtts_ok_mem {s2id : List (String × ℕ)} {speaker : String} :
    ∀ (utts : List String) (acc res : List (String × ℕ)),
      initSpeakerUtts s2id speaker utts acc = Except.ok res →
      ∀ pr ∈ res, pr ∈ acc ∨ ∃ p ∈ s2id, p.2 = pr.2 := by
  intro utts
  induction utts with
  | nil =>
    intro acc res h pr hpr
    cases h
    exact Or.inl hpr
  | cons fp rest ih =>
    intro acc res h pr hpr
    rw [initSpeakerUtts] at h
    cases hd : dictLookup s2id speaker with
    | ok sid =>
      rw [hd] at h
      rcases ih (acc ++ [(fp, sid)]) res h pr hpr with hin | hex
      · rcases List.mem_append.mp hin with h1 | h1
        · exact Or.inl h1
        · have hpr2 : pr = (fp, sid) := by simpa using h1
          subst hpr2
          exact Or.inr (dictLookup_ok_mem hd)
      · exact Or.inr hex
    | error e => rw [hd] at h; cases h

lemma dictLookup_error_eq {m : List (String × ℕ)} {k : String} {e : String}
    (h : dictLookup m k = Except.error e) : e = "KeyError" := by
  rw [dictLookup] at h
  cases hf : m.find? (fun p => p.1 == k) with
  | none => rw [hf] at h; cases h; rfl
  | some p => rw [hf] at h; cases h

lemma initSpeakerUtts_error_eq {s2id : List (String × ℕ)} {speaker : String} :
    ∀ (utts : List String) (acc : List (String × ℕ)) (e : String),
      initSpeakerUtts s2id speaker utts acc = Except.error e →
      e = "KeyError" := by
  intro utts
  induction utts with
  | nil => intro acc e h; cases h
  | cons fp rest ih =>
    intro acc e h
    rw [initSpeakerUtts] at h
    cases hd : dictLookup s2id speaker with
    | ok sid =>
      rw [hd] at h
      exact ih _ _ h
    | error e2 =>
      rw [hd] at h
      cases h
      exact dictLookup_error_eq hd

lemma initData_ok_mem {s2id : List (String × ℕ)} :
    ∀ (md : List (String × List String)) (acc res : List (String × ℕ)),
      initData s2id md acc = Except.ok res →
      ∀ pr ∈ res, pr ∈ acc ∨ ∃ p ∈ s2id, p.2 = pr.2 := by
  intro md
  induction md with
  | nil =>
    intro acc res h pr hpr
    cases h
    exact Or.inl hpr
  | cons hd rest ih =>
    intro acc res h pr hpr
    obtain ⟨speaker, utts⟩ := hd
    rw [initData] at h
    cases hs : initSpeakerUtts s2id speaker utts acc with
    | ok acc2 =>
      rw [hs] at h
      rcases ih acc2 res h pr hpr with hin | hex
      · exact initSpeakerUtts_ok_mem utts acc acc2 hs pr hin
      · exact Or.inr hex
    | error e => rw [hs] at h; cases h

lemma initData_error_of_unmapped {s2id : List (String × ℕ)} {speaker : String}
    {utts : List String}
    (hun : dictLookup s2id speaker = Except.error "KeyError")
    (hne : utts ≠ []) :
    ∀ (md : List (String × List String)) (acc : List (String × ℕ)),
      (speaker, utts) ∈ md →
      initData s2id md acc = Except.error "KeyError" := by
  intro md
  induction md with
  | nil => intro acc hmem; cases hmem
  | cons hd rest ih =>
    intro acc hmem
    rcases List.mem_cons.mp hmem with heq | hmem2
    · subst heq
      rw [initData]
      cases utts with
      | nil => exact absurd rfl hne
      | cons fp r =>
        rw [initSpeakerUtts, hun]
    · obtain ⟨s2, u2⟩ := hd
      rw [initData]
      cases hs : initSpeakerUtts s2id s2 u2 acc with
      | ok acc2 => exact ih acc2 hmem2
      | error e =>
        rw [initSpeakerUtts_error_eq u2 acc e hs]

/-- C9 counterexample: a metadata speaker with an empty utterance list and no
entry in the mapping does not make construction fail — nothing is looked up
for it, so `initData` succeeds, contradicting the claim that construction
fails with a lookup error whenever a metadata speaker is absent from the
mapping. -/
theorem dataset_unmapped_speaker_counterexample :
    initData [] [("spk", [])] [] = Except.ok [] ∧
      ∀ e, initData [] [("spk", [])] [] ≠ Except.error e := by
  constructor
  · rfl
  · intro e h
    cases h

/-- C9 amended: every label stored by the constructed dataset comes from the
speaker mapping, and dataset construction fails with a `KeyError` whenever a
metadata speaker with at least one utterance is absent from the mapping. -/
theorem dataset_labels_mapped (speaker2id : List (String × ℕ))
    (metadata : List (String × List String)) :
    (∀ res, initData speaker2id metadata [] = Except.ok res →
      ∀ pr ∈ res, ∃ p ∈ speaker2id, p.2 = pr.2) ∧
    (∀ speaker utts, (speaker, utts) ∈ metadata → utts ≠ [] →
      (∀ p ∈ speaker2id, p.1 ≠ speaker) →
      initData speaker2id metadata [] = Except.error "KeyError") := by
  constructor
  · intro res h pr hpr
    rcases initData_ok_mem metadata [] res h pr hpr with hin | hex
    · cases hin
    · exact hex
  · intro speaker utts hmem hne hun
    exact initData_error_of_unmapped (dictLookup_error hun) hne metadata [] hmem

/-- Concrete instance of `dataset_labels_mapped`: a mapped speaker's label is
traced back to the mapping, and an unmapped speaker with one utterance makes
construction fail. -/
theorem dataset_labels_mapped_witness :
    (∃ p ∈ [("a", 5)], p.2 = 5) ∧
      initData [("a", 5)] [("b", ["u1"])] [] = Except.error "KeyError" := by
  constructor
  · exact (dataset_labels_mapped [("a", 5)] [("a", ["u1"])]).1
      [("u1", 5)] rfl ("u1", 5) (by simp)
  · exact (dataset_labels_mapped [("a", 5)] [("b", ["u1"])]).2 "b" ["u1"]
      (by simp) (by simp) (by decide)

/-! ## Training loop (`main`, lines 455-504)

The loop runs `for step in range(total_steps)`.  Each iteration fetches a
batch with `next(train_iterator)`, catching `StopIteration` by recreating the
iterator from the loader and taking the first batch of the new pass (an
uncaught `StopIteration` remains only if the loader yields no batch at all).
Every `valid_steps` steps it validates; on improvement it executes
`best_state_dict = torch.save(model, model4)`, where `model4` is an undefined
name, so Python raises `NameError` at that point.  Every `save_steps` steps
it persists `best_state_dict` if it is not `None`.  Batches, the model and
the optimizer are abstracted away: the loader is represented by its batch
count, validation accuracy by an arbitrary function of the step, and a model
snapshot by `Unit`. -/

/-- The mutable training-loop state: iterator cursor, best validation
accuracy, best checkpoint candidate, number of disk saves, and number of
completed steps. -/
structure TrainState where
  cursor : ℕ
  bestAccuracy : ℚ
  bestStateDict : Option Unit
  diskSaves : ℕ
  stepsDone : ℕ
deriving DecidableEq

/-- Embedding of the `try: next(train_iterator) / except StopIteration:`
block: advance the cursor, restarting from the first batch of a fresh pass on
exhaustion; a second exhaustion (empty loader) is uncaught. -/
def nextBatch (loaderLen cursor : ℕ) : Except String ℕ :=
  if cursor < loaderLen then Except.ok (cursor + 1)
  else if 0 < loaderLen then Except.ok 1
  else Except.error "StopIteration"

/-- Embedding of the `save_steps` check: persist the best candidate to disk
if one exists. -/
def saveCheck (saveSteps step : ℕ) (s : TrainState) : TrainState :=
  if (step + 1) % saveSteps = 0 ∧ s.bestStateDict.isSome then
    { s with diskSaves := s.diskSaves + 1 }
  else s

/-- Embedding of one iteration of the training loop.  On an improved
validation accuracy the original line `best_state_dict = torch.save(model,
model4)` evaluates the undefined name `model4`, so the iteration raises
`NameError`. -/
def trainStep (validAcc : ℕ → ℚ) (validSteps saveSteps loaderLen : ℕ)
    (s : TrainState) (step : ℕ) : Except String TrainState :=
  match nextBatch loaderLen s.cursor with
  | Except.error e => Except.error e
  | Except.ok c =>
    let s1 : TrainState := { s with cursor := c, stepsDone := s.stepsDone + 1 }
    if (step + 1) % validSteps = 0 ∧ s1.bestAccuracy < validAcc step then
      Except.error "NameError: name model4 is not defined"
    else
      Except.ok (saveCheck saveSteps step s1)

/-- Embedding of `for step in range(total_steps)` with the initial state
`best_accuracy = -1.0`, `best_state_dict = None` and a fresh iterator. -/
def trainLoop (validAcc : ℕ → ℚ) (validSteps saveSteps totalSteps loaderLen : ℕ) :
    Except String TrainState :=
  (List.range totalSteps).foldlM (trainStep validAcc validSteps saveSteps loaderLen)
    ⟨0, -1, none, 0, 0⟩

lemma except_error_bind {ε α β : Type} (e : ε) (f : α → Except ε β) :
    (Except.error e >>= f) = Except.error e := rfl

lemma except_ok_bind {ε α β : Type} (a : α) (f : α → Except ε β) :
    (Except.ok a >>= f) = f a := rfl

lemma nextBatch_ok (loaderLen cursor : ℕ) (h : 0 < loaderLen) :
    ∃ c, nextBatch loaderLen cursor = Except.ok c := by
  rw [nextBatch]
  by_cases hc : cursor < loaderLen
  · exact ⟨cursor + 1, by rw [if_pos hc]⟩
  · exact ⟨1, by rw [if_neg hc, if_pos h]⟩

lemma saveCheck_fields (saveSteps step : ℕ) (s : TrainState) :
    (saveCheck saveSteps step s).bestAccuracy = s.bestAccuracy ∧
    (saveCheck saveSteps step s).bestStateDict = s.bestStateDict ∧
    (saveCheck saveSteps step s).stepsDone = s.stepsDone := by
  rw [saveCheck]
  split <;> exact ⟨rfl, rfl, rfl⟩

/-- Running the loop body from step `j` through `m` non-validation steps and
then one validation step with an accuracy above the running best raises the
`NameError`, whatever steps `k` would remain. -/
lemma trainLoop_crash_aux (validAcc : ℕ → ℚ) (validSteps saveSteps loaderLen : ℕ)
    (hl : 0 < loaderLen) :
    ∀ (m j k : ℕ) (s : TrainState),
      (∀ i, j ≤ i → i < j + m → (i + 1) % validSteps ≠ 0) →
      (j + m + 1) % validSteps = 0 →
      s.bestAccuracy = -1 → s.bestStateDict = none →
      -1 < validAcc (j + m) →
      (List.range' j (m + 1 + k)).foldlM
          (trainStep validAcc validSteps saveSteps loaderLen) s
        = Except.error "NameError: name model4 is not defined" := by
  intro m
  induction m with
  | zero =>
    intro j k s hno hvs hA hD hacc
    have hrange : List.range' j (0 + 1 + k) = j :: List.range' (j + 1) k := by
      have h1 : 0 + 1 + k = k + 1 := by omega
      rw [h1]
      exact List.range'_succ j k 1
    rw [hrange, List.foldlM_cons]
    obtain ⟨c, hc⟩ := nextBatch_ok loaderLen s.cursor hl
    have hcond : (j + 1) % validSteps = 0 ∧ s.bestAccuracy < validAcc j := by
      refine ⟨by simpa using hvs, ?_⟩
      rw [hA]
      simpa using hacc
    have hstep : trainStep validAcc validSteps saveSteps loaderLen s j
        = Except.error "NameError: name model4 is not defined" := by
      simp only [trainStep, hc]
      rw [if_pos hcond]
    rw [hstep, except_error_bind]
  | succ m ih =>
    intro j k s hno hvs hA hD hacc
    have hrange : List.range' j (m + 1 + 1 + k) = j :: List.range' (j + 1) (m + 1 + k) := by
      have : m + 1 + 1 + k = (m + 1 + k) + 1 := by omega
      rw [this]
      exact List.range'_succ j (m + 1 + k) 1
    rw [hrange, List.foldlM_cons]
    obtain ⟨c, hc⟩ := nextBatch_ok loaderLen s.cursor hl
    have hnoj : (j + 1) % validSteps ≠ 0 := hno j le_rfl (by omega)
    have hstep : trainStep validAcc validSteps saveSteps loaderLen s j
        = Except.ok (saveCheck saveSteps j
            { s with cursor := c, stepsDone := s.stepsDone + 1 }) := by
      simp only [trainStep, hc]
      rw [if_neg]
      intro hcon
      exact hnoj hcon.1
    rw [hstep, except_ok_bind]
    set s1 : TrainState := { s with cursor := c, stepsDone := s.stepsDone + 1 }
    obtain ⟨hA1, hD1, _⟩ := saveCheck_fields saveSteps j s1
    exact ih (j + 1) k (saveCheck saveSteps j s1)
      (fun i hi1 hi2 => hno i (by omega) (by omega))
      (by have : j + 1 + m + 1 = j + (m + 1) + 1 := by omega
          rw [this]; exact hvs)
      (by rw [hA1]; exact hA)
      (by rw [hD1]; exact hD)
      (by have : j + 1 + m = j + (m + 1) := by omega
          rw [this]; exact hacc)

/-- C1: in the loop as written, the first validation pass whose accuracy
exceeds the starting best accuracy `-1.0` executes `best_state_dict =
torch.save(model, model4)` with `model4` undefined, so the run aborts with a
`NameError`: the best candidate is never retained and never persisted. -/
theorem training_checkpoint_crash (validAcc : ℕ → ℚ)
    (validSteps saveSteps totalSteps loaderLen : ℕ)
    (hv : 0 < validSteps) (hvt : validSteps ≤ totalSteps) (hl : 0 < loaderLen)
    (hacc : -1 < validAcc (validSteps - 1)) :
    trainLoop validAcc validSteps saveSteps totalSteps loaderLen
      = Except.error "NameError: name model4 is not defined" := by
  rw [trainLoop, List.range_eq_range']
  have hsplit : totalSteps = (validSteps - 1) + 1 + (totalSteps - validSteps) := by
    omega
  rw [hsplit]
  apply trainLoop_crash_aux validAcc validSteps saveSteps loaderLen hl
    (validSteps - 1) 0 (totalSteps - validSteps) ⟨0, -1, none, 0, 0⟩
  · intro i hi1 hi2
    have h1 : 0 < i + 1 := by omega
    have h2 : i + 1 < validSteps := by omega
    rw [Nat.mod_eq_of_lt h2]
    omega
  · have : 0 + (validSteps - 1) + 1 = validSteps := by omega
    rw [this, Nat.mod_self]
  · rfl
  · rfl
  · have : 0 + (validSteps - 1) = validSteps - 1 := by omega
    rw [this]
    exact hacc

/-- Concrete instance of `training_checkpoint_crash`: 4 loader batches,
validation every 2 steps, saving every 3, 10 total steps, all validation
accuracies 0. -/
theorem training_checkpoint_crash_witness :
    trainLoop (fun _ => 0) 2 3 10 4
      = Except.error "NameError: name model4 is not defined" :=
  training_checkpoint_crash (fun _ => 0) 2 3 10 4 (by norm_num) (by norm_num)
    (by norm_num) (by norm_num)

/-- C7: evaluating the loop shows both halves of the claim's fate.  With
validation active (`valid_steps = 1 ≤ total_steps = 3`) the loop aborts with
the `NameError` instead of completing `total_steps` steps; with validation
never triggered (`valid_steps = 10 > total_steps = 3`) a single-batch loader
is exhausted and transparently restarted every step and the loop completes
exactly `total_steps = 3` steps. -/
theorem training_loop_steps_claim :
    (trainLoop (fun _ => 0) 1 10 3 1
        = Except.error "NameError: name model4 is not defined") ∧
    (trainLoop (fun _ => 0) 10 10 3 1 = Except.ok ⟨1, -1, none, 0, 3⟩) :=
  ⟨rfl, rfl⟩

/-! ## Inference runner (`parse_args` and `main`, lines 564-667)

The inference cell ends with `main(**parse_args())`.  The dict literal in
`parse_args` closes the `model_path` entry on line 572, making `config1`,
`config2` and `config3` keys of the outer config dict, and then has one
closing brace too many on line 607 (a `SyntaxError` on its own).  Even with
the stray brace dropped, the keyword set of the returned dict does not match
the parameters of `main`, so the call raises `TypeError` before any
checkpoint is loaded or any prediction row is written. -/

/-- The keys of the dict built by the inference `parse_args` (lines 566-607),
with the unmatched closing brace of line 607 dropped: `config1..config3` sit
beside `model_path`, not inside it. -/
def inference_parse_args_keys : List String :=
  ["data_dir", "output_path", "model_path", "config1", "config2", "config3"]

/-- The parameter names of the inference `main` (lines 612-617). -/
def inference_main_params : List String :=
  ["data_dir", "model_path", "output_path", "model_config"]

/-- C2: `main(**parse_args())` cannot bind its arguments: `parse_args`
supplies the keyword `config1` (likewise `config2`, `config3`) that `main`
does not accept, and `main` requires `model_config`, which `parse_args` does
not supply — a `TypeError`, so the ensemble inference never runs. -/
theorem inference_kwargs_mismatch :
    "config1" ∈ inference_parse_args_keys ∧
    "config1" ∉ inference_main_params ∧
    "model_config" ∈ inference_main_params ∧
    "model_config" ∉ inference_parse_args_keys := by
  refine ⟨?_, ?_, ?_, ?_⟩ <;> decide

end HW4
